import Mathlib

set_option maxHeartbeats 1000000

/-!
Shallow embedding of the rscache repository (src/database.rs, src/resp.rs)
and verification of its specification claims.

Modelling conventions:
* Rust `i32` counters are modelled as `Int`; the magnitudes reached by the
  store's accounting (bounded by `max_size` plus one item) stay far below
  2^31, so wrap-around is not modelled.
* `HashMap<String, Value>` is modelled as an association list with the
  representation invariant that keys are pairwise distinct; `insert` is
  "erase the old binding, cons the new one", `get` is `find?`.
* Rust panics (`unwrap` on `None`, `parse().unwrap()`, explicit `panic!`,
  out-of-bounds indexing) are modelled as `Except`/`Option` failure values.
-/

/-- Value type from src/database.rs. The `f64` payload of `Float` is
modelled opaquely by its 64-bit pattern; no claim inspects float
arithmetic, only the 8-byte accounting of the variant. The Rust
constructor `String` is rendered `Str` to avoid clashing with Lean's
`String` type. -/
inductive Value where
  | Integer (n : Int)
  | Str (s : String)
  | Float (bits : UInt64)
  | Boolean (b : Bool)
deriving DecidableEq

/-- Error type `DatabaseError` from src/database.rs. -/
inductive DatabaseError where
  | KeyDoesNotExist
  | MaxSizeExceeded
deriving DecidableEq

/-- `MemoryDatabase` from src/database.rs: a `HashMap<String, Value>`
(modelled as an association list with distinct keys), the running `size`
counter and the capacity `max_size`. -/
structure MemoryDatabase where
  items : List (String × Value)
  size : Int
  max_size : Int
deriving DecidableEq

/-- `MemoryDatabase::new`: empty map, size 0, capacity 1024*1024. -/
def MemoryDatabase.new : MemoryDatabase :=
  { items := [], size := 0, max_size := 1024 * 1024 }

/-- An empty store with a configured capacity (the state produced by
`MemoryDatabase::new` generalised over the capacity, as exercised by the
repository's own test that sets `db.max_size` directly). -/
def MemoryDatabase.emptyWithCapacity (cap : Int) : MemoryDatabase :=
  { items := [], size := 0, max_size := cap }

/-- `MemoryDatabase::calculate_value_size`: payload bytes of the value
(`String` → its UTF-8 byte length, per Rust `str::len`; `Integer` → 4;
`Float` → 8; `Boolean` → 1) plus the UTF-8 byte length of the key. -/
def MemoryDatabase.calculate_value_size (key : String) (value : Value) : Int :=
  (match value with
    | Value.Integer _ => 4
    | Value.Str s => (s.utf8ByteSize : Int)
    | Value.Float _ => 8
    | Value.Boolean _ => 1) + (key.utf8ByteSize : Int)

/-- `MemoryDatabase::get`: pure lookup. -/
def MemoryDatabase.get (db : MemoryDatabase) (key : String) : Option Value :=
  (db.items.find? (fun p => p.1 == key)).map Prod.snd

/-- `MemoryDatabase::set`: reject when `size + item_size > max_size`,
otherwise insert (overwriting any existing binding) and add `item_size`
to the counter. Note the source does not subtract the overwritten
entry's size. The mutation is returned alongside the `Result`. -/
def MemoryDatabase.set (db : MemoryDatabase) (key : String) (value : Value) :
    Except DatabaseError Unit × MemoryDatabase :=
  let item_size := MemoryDatabase.calculate_value_size key value
  if db.size + item_size > db.max_size then
    (Except.error DatabaseError.MaxSizeExceeded, db)
  else
    (Except.ok (),
      { db with
        items := (key, value) :: db.items.eraseP (fun p => p.1 == key)
        size := db.size + item_size })

/-- `MemoryDatabase::remove`: `KeyDoesNotExist` when absent, otherwise
delete the binding and subtract `calculate_value_size key stored_value`. -/
def MemoryDatabase.remove (db : MemoryDatabase) (key : String) :
    Except DatabaseError Unit × MemoryDatabase :=
  match db.items.find? (fun p => p.1 == key) with
  | none => (Except.error DatabaseError.KeyDoesNotExist, db)
  | some kv =>
    let item_size := MemoryDatabase.calculate_value_size key kv.2
    (Except.ok (),
      { db with
        items := db.items.eraseP (fun p => p.1 == key)
        size := db.size - item_size })

/-- Sum of the accounted sizes of the live entries of an association list. -/
def sumEntries (items : List (String × Value)) : Int :=
  (items.map (fun p => MemoryDatabase.calculate_value_size p.1 p.2)).sum

/-- HashMap representation invariant: keys pairwise distinct. -/
def MemoryDatabase.KeysUnique (db : MemoryDatabase) : Prop :=
  db.items.Pairwise (fun a b => a.1 ≠ b.1)

/-- Stores reachable from a freshly created store by successful `set` and
`remove` operations, as the spec's size invariant quantifies them
(overwriting sets included). -/
inductive Reachable : MemoryDatabase → Prop where
  | init (cap : Int) : Reachable (MemoryDatabase.emptyWithCapacity cap)
  | set (db : MemoryDatabase) (k : String) (v : Value) :
      Reachable db → (db.set k v).1 = Except.ok () → Reachable (db.set k v).2
  | rem (db : MemoryDatabase) (k : String) :
      Reachable db → (db.remove k).1 = Except.ok () → Reachable (db.remove k).2

/-- Stores reachable from a freshly created store by `set` operations that
never overwrite a live key, and arbitrary `remove` operations (failed
operations leave the store unchanged, so they are admitted as well). -/
inductive ReachableNoOverwrite : MemoryDatabase → Prop where
  | init (cap : Int) : ReachableNoOverwrite (MemoryDatabase.emptyWithCapacity cap)
  | set (db : MemoryDatabase) (k : String) (v : Value) :
      ReachableNoOverwrite db → db.get k = none →
      ReachableNoOverwrite (db.set k v).2
  | rem (db : MemoryDatabase) (k : String) :
      ReachableNoOverwrite db → ReachableNoOverwrite (db.remove k).2

/-! The RESP tokenizer/parser from src/resp.rs. The `Tokenizer`'s
`(input, position)` cursor only moves forward one character at a time, so
it is modelled by the list of characters not yet consumed. Tokens are
accumulated as `List Char` (the Rust code's `String` under `chars()`
view) and converted to `String` at the `parse` boundary. -/

/-- The space character (U+0020). -/
def spaceChar : Char := Char.ofNat 32

/-- The double-quote character (U+0022). -/
def quoteChar : Char := Char.ofNat 34

/-- `Parser::get_next_token`'s `while let Some(c) = peek()` loop.
Arguments: remaining input, accumulator `s`, flag `is_quoted`. Returns
the token and the input left unconsumed. Mirrors src/resp.rs lines
48-89: `\r` handling first (break when the accumulator is non-empty;
otherwise consume the `\r`, fuse a following `\n` into a `"\r\n"` token,
or fall through pushing `'\r'` and consuming one further character);
then unquoted-space handling, then quote toggling, then the default
push-and-advance. -/
def getNextTokenLoop : List Char → List Char → Bool → List Char × List Char
  | [], s, _ => (s, [])
  | c :: rest, s, q =>
    if c = '\r' then
      if s.length > 0 then (s, c :: rest)
      else
        match rest with
        | '\n' :: rest2 => (s ++ ['\r', '\n'], rest2)
        | [] => (s ++ ['\r'], [])
        | _ :: rest2 => getNextTokenLoop rest2 (s ++ ['\r']) q
    else if c = spaceChar ∧ q = false then
      if s.length > 0 then (s, c :: rest) else (s ++ [spaceChar], rest)
    else if c = quoteChar ∧ q = false then getNextTokenLoop rest s true
    else if c = quoteChar ∧ q = true then (s, rest)
    else getNextTokenLoop rest (s ++ [c]) q

/-- `Parser::get_next_token`: `None` exactly when the cursor is already
at end of input, otherwise the loop above starting from an empty
accumulator, unquoted. -/
def getNextTokenOpt (input : List Char) : Option (List Char × List Char) :=
  if input.isEmpty then none else some (getNextTokenLoop input [] false)

/-- Decimal digit accumulator for `str::parse::<i32>`. -/
def parseDigitsGo : List Char → Nat → Option Nat
  | [], acc => some acc
  | c :: cs, acc =>
    if c.isDigit then parseDigitsGo cs (acc * 10 + (c.toNat - 48)) else none

/-- All-digit parse of a non-empty character run. -/
def parseDigits (l : List Char) : Option Nat :=
  match l with
  | [] => none
  | _ => parseDigitsGo l 0

/-- `str::parse::<i32>` as used on `token[1..]`: optional sign, then a
non-empty run of decimal digits, rejected when the value overflows
`i32`. -/
def parseI32 (s : List Char) : Option Int :=
  match s with
  | '-' :: ds => (parseDigits ds).bind
      (fun n => if n ≤ 2 ^ 31 then some (-(n : Int)) else none)
  | '+' :: ds => (parseDigits ds).bind
      (fun n => if n ≤ 2 ^ 31 - 1 then some (n : Int) else none)
  | ds => (parseDigits ds).bind
      (fun n => if n ≤ 2 ^ 31 - 1 then some (n : Int) else none)

/-- Errors of `Parser::parse`. Every Rust panic site gets its own value:
`unwrapNone` is `token.unwrap()` on `None` inside the `$` loop,
`intParse` is `token[1..].parse::<i32>().unwrap()` failing, and
`countMismatch` is the explicit `panic!("Expected {} tokens, found {}")`.
`fuelOut` is an artefact of the fuelled loops; the top-level wrapper
supplies enough fuel for it never to arise. -/
inductive PErr where
  | fuelOut
  | unwrapNone
  | intParse
  | countMismatch (expected : Int) (actual : Nat)
deriving DecidableEq

/-- The inner `loop` of the `$` branch of `Parser::parse` (src/resp.rs
lines 131-140): pull a token (panicking at end of input), add its
character count, stop once the running count exceeds the declared size
(the breaking token is consumed but discarded), otherwise append the
token to the payload accumulator. -/
def bulkLoop : Nat → List Char → Int → List Char → Nat → Except PErr (List Char × List Char)
  | 0, _, _, _, _ => Except.error PErr.fuelOut
  | fuel + 1, input, tokenSize, acc, cur =>
    match getNextTokenOpt input with
    | none => Except.error PErr.unwrapNone
    | some (t, rest) =>
      let cur2 := cur + t.length
      if (cur2 : Int) > tokenSize then Except.ok (acc, rest)
      else bulkLoop fuel rest tokenSize (acc ++ t) cur2

/-- The final declared-count check of `Parser::parse` (src/resp.rs lines
153-159): panic when the most recently declared count is strictly
positive and differs from the number of collected tokens. -/
def parseFinish (tokenCount : Int) (tokens : List (List Char)) :
    Except PErr (List (List Char)) :=
  if tokenCount > 0 ∧ (tokens.length : Int) ≠ tokenCount then
    Except.error (PErr.countMismatch tokenCount tokens.length)
  else Except.ok tokens

/-- The main `loop` of `Parser::parse` (src/resp.rs lines 104-151):
empty tokens are skipped; a `*`-token re-assigns `token_count` and skips
two characters; a `$`-token parses the declared size, skips two
characters and runs `bulkLoop` (with locally sufficient fuel); the
tokens `"\r\n"` and `" "` are skipped; anything else is pushed. On end
of input the declared-count check runs. -/
def parseLoop : Nat → List Char → Int → List (List Char) → Except PErr (List (List Char))
  | 0, _, _, _ => Except.error PErr.fuelOut
  | fuel + 1, input, tokenCount, tokens =>
    match getNextTokenOpt input with
    | none => parseFinish tokenCount tokens
    | some (t, rest) =>
      if t = [] then parseLoop fuel rest tokenCount tokens
      else if t.head? = some '*' then
        match parseI32 (t.drop 1) with
        | none => Except.error PErr.intParse
        | some n => parseLoop fuel (rest.drop 2) n tokens
      else if t.head? = some '$' then
        match parseI32 (t.drop 1) with
        | none => Except.error PErr.intParse
        | some n =>
          match bulkLoop ((rest.drop 2).length + 1) (rest.drop 2) n [] 0 with
          | Except.error e => Except.error e
          | Except.ok (nt, rest2) => parseLoop fuel rest2 tokenCount (tokens ++ [nt])
      else if t = ['\r', '\n'] ∨ t = [spaceChar] then parseLoop fuel rest tokenCount tokens
      else parseLoop fuel rest tokenCount (tokens ++ [t])

/-- `Parser::parse` on a fresh `Parser::new(input)`: run the main loop
from `token_count = 0` with no collected tokens, with enough fuel that
`fuelOut` is unreachable (each iteration consumes at least one input
character). -/
def Parser.parse (input : String) : Except PErr (List String) :=
  (parseLoop (input.length + 1) input.data 0 []).map (fun ts => ts.map List.asString)

/-- Is the result the declared-count `panic!` of `Parser::parse`? -/
def isCountMismatch {α : Type} : Except PErr α → Bool
  | Except.error (PErr.countMismatch _ _) => true
  | _ => false

/-- ASCII lowercasing of `command.to_lowercase()`. Rust's full Unicode
lowercasing agrees with `Char.toLower` on the ASCII command names the
dispatcher compares against. -/
def toLowercase (s : String) : String := String.mk (s.data.map Char.toLower)

/-- `SetCommandHandler::handle` (src/resp.rs lines 172-181): arity error
when fewer than three arguments are supplied (note: three, although only
`args[0]` and `args[1]` are used), otherwise `db.set(args[0],
String(args[1]))` mapped to `"+OK"` / `"-ERR an error occurred"`. The
guard makes the `args[0]`/`args[1]` indexing infallible, so the handler
is total. -/
def SetCommandHandler.handle (db : MemoryDatabase) (args : List String) :
    String × MemoryDatabase :=
  match args with
  | k :: v :: _ :: _ =>
    (match db.set k (Value.Str v) with
      | (Except.ok _, db2) => ("+OK", db2)
      | (Except.error _, db2) => ("-ERR an error occurred", db2))
  | _ => ("-ERR wrong number of arguments for 'set' command", db)

/-- `dispatch` (src/resp.rs lines 184-191): `args[0]` panics on an empty
argument vector (modelled as `none`); otherwise the lowercased command
name routes to the SET handler with `args[1..]`, or to the fixed
unknown-command reply. -/
def dispatch (db : MemoryDatabase) (args : List String) :
    Option (String × MemoryDatabase) :=
  match args with
  | [] => none
  | command :: rest =>
    if toLowercase command = "set" then some (SetCommandHandler.handle db rest)
    else some ("-ERR unknown command", db)

theorem sumEntries_cons (p : String × Value) (l : List (String × Value)) :
    sumEntries (p :: l) = MemoryDatabase.calculate_value_size p.1 p.2 + sumEntries l := by
  simp [sumEntries]

theorem sumEntries_eraseP_of_find? (l : List (String × Value)) (k : String)
    (a : String × Value) (h : l.find? (fun p => p.1 == k) = some a) :
    sumEntries (l.eraseP (fun p => p.1 == k)) =
      sumEntries l - MemoryDatabase.calculate_value_size a.1 a.2 := by
  induction l with
  | nil => simp at h
  | cons x xs ih =>
    by_cases hx : (x.1 == k) = true
    · simp only [List.find?_cons, hx] at h
      cases h
      simp only [List.eraseP_cons, hx, cond_true, sumEntries_cons]
      ring
    · have hx' : (x.1 == k) = false := by simpa using hx
      simp only [List.find?_cons, hx'] at h
      simp only [List.eraseP_cons, hx', cond_false, sumEntries_cons, ih h]
      ring

theorem find?_eraseP_of_uniq (l : List (String × Value)) (k : String)
    (hu : l.Pairwise (fun a b => a.1 ≠ b.1)) (a : String × Value)
    (h : l.find? (fun p => p.1 == k) = some a) :
    (l.eraseP (fun p => p.1 == k)).find? (fun p => p.1 == k) = none := by
  induction l with
  | nil => simp at h
  | cons x xs ih =>
    rcases List.pairwise_cons.mp hu with ⟨hx, hxs⟩
    by_cases hpk : (x.1 == k) = true
    · simp only [List.eraseP_cons, hpk, cond_true]
      rw [List.find?_eq_none]
      intro y hy
      have hne : x.1 ≠ y.1 := hx y hy
      have hxk : x.1 = k := by simpa using hpk
      simp only [beq_iff_eq]
      intro hyk
      exact hne (by rw [hxk, hyk])
    · have hpk' : (x.1 == k) = false := by simpa using hpk
      simp only [List.find?_cons, hpk'] at h
      simp only [List.eraseP_cons, hpk', cond_false, List.find?_cons]
      exact ih hxs h

/-- Claim C3 (confirmed): if `current_size + item_size` exceeds `max_size`,
`set` fails with `MaxSizeExceeded` (the spec's `CapacityExceeded`) and the
store is completely unchanged. -/
theorem c3_set_capacity_exceeded (db : MemoryDatabase) (k : String) (v : Value)
    (h : db.size + MemoryDatabase.calculate_value_size k v > db.max_size) :
    db.set k v = (Except.error DatabaseError.MaxSizeExceeded, db) := by
  simp [MemoryDatabase.set, h]

/-- Witness for C3 at the repository's own test input (`max_size = 1`,
`set "test" (Str "test")`). -/
theorem c3_set_capacity_exceeded_witness :
    (MemoryDatabase.emptyWithCapacity 1).set "test" (Value.Str "test")
      = (Except.error DatabaseError.MaxSizeExceeded, MemoryDatabase.emptyWithCapacity 1) :=
  c3_set_capacity_exceeded _ _ _ (by decide)

/-- Claim C4 (confirmed): on a fresh store of the configured capacity,
any `set` whose accounted item size fits within the capacity succeeds,
and `get` then returns the stored value. -/
theorem c4_set_get_roundtrip (cap : Int) (k : String) (v : Value)
    (h : MemoryDatabase.calculate_value_size k v ≤ cap) :
    ((MemoryDatabase.emptyWithCapacity cap).set k v).1 = Except.ok () ∧
    ((MemoryDatabase.emptyWithCapacity cap).set k v).2.get k = some v := by
  have hlt : ¬ (cap < MemoryDatabase.calculate_value_size k v) := not_lt.mpr h
  constructor
  · simp [MemoryDatabase.set, MemoryDatabase.emptyWithCapacity, hlt]
  · simp [MemoryDatabase.set, MemoryDatabase.emptyWithCapacity, hlt, MemoryDatabase.get,
      List.find?_cons]

/-- Witness for C4 at `cap = 1024`, `k = "k"`, `v = Str "v"`. -/
theorem c4_set_get_roundtrip_witness :
    ((MemoryDatabase.emptyWithCapacity 1024).set "k" (Value.Str "v")).1 = Except.ok () ∧
    ((MemoryDatabase.emptyWithCapacity 1024).set "k" (Value.Str "v")).2.get "k"
      = some (Value.Str "v") :=
  c4_set_get_roundtrip 1024 "k" (Value.Str "v") (by decide)

/-- Claim C9 (confirmed): `remove` of an absent key fails with
`KeyDoesNotExist` (the spec's `KeyNotFound`) leaving the store unchanged;
`remove` of a present key succeeds, deletes the entry and decreases the
size counter by that entry's accounted size. The hypothesis is the
`HashMap` representation invariant (distinct keys). -/
theorem c9_remove_spec (db : MemoryDatabase) (k : String) (hu : db.KeysUnique) :
    (db.get k = none → db.remove k = (Except.error DatabaseError.KeyDoesNotExist, db)) ∧
    (∀ v, db.get k = some v →
      (db.remove k).1 = Except.ok () ∧
      (db.remove k).2.get k = none ∧
      (db.remove k).2.size = db.size - MemoryDatabase.calculate_value_size k v) := by
  constructor
  · intro hget
    have hf : db.items.find? (fun p => p.1 == k) = none := by
      simpa [MemoryDatabase.get] using hget
    simp [MemoryDatabase.remove, hf]
  · intro v hget
    obtain ⟨kv, hf, hv⟩ : ∃ kv, db.items.find? (fun p => p.1 == k) = some kv ∧ kv.2 = v := by
      unfold MemoryDatabase.get at hget
      cases hfind : db.items.find? (fun p => p.1 == k) with
      | none => rw [hfind] at hget; simp at hget
      | some kv => exact ⟨kv, rfl, by rw [hfind] at hget; simpa using hget⟩
    refine ⟨?_, ?_, ?_⟩
    · simp [MemoryDatabase.remove, hf]
    · have he := find?_eraseP_of_uniq db.items k hu kv hf
      simp [MemoryDatabase.remove, hf, MemoryDatabase.get, he]
    · simp [MemoryDatabase.remove, hf, hv]

/-- Witness for C9 on the one-entry store `[("a", Str "bc")]`. -/
theorem c9_remove_spec_witness :
    ((⟨[("a", Value.Str "bc")], 3, 64⟩ : MemoryDatabase).remove "a").1 = Except.ok () ∧
    ((⟨[("a", Value.Str "bc")], 3, 64⟩ : MemoryDatabase).remove "a").2.get "a" = none ∧
    ((⟨[("a", Value.Str "bc")], 3, 64⟩ : MemoryDatabase).remove "a").2.size
      = (⟨[("a", Value.Str "bc")], 3, 64⟩ : MemoryDatabase).size
        - MemoryDatabase.calculate_value_size "a" (Value.Str "bc") :=
  (c9_remove_spec ⟨[("a", Value.Str "bc")], 3, 64⟩ "a"
      (by simp [MemoryDatabase.KeysUnique])).2 (Value.Str "bc") (by rfl)

/-- Claim C2 counterexample: a store reached by two successful `set`s of
the same key (an overwrite) has `size = 4` but its single live entry
accounts for only `2` — the source adds the new item size on overwrite
without subtracting the old one. -/
theorem c2_size_invariant_counterexample :
    Reachable ((((MemoryDatabase.emptyWithCapacity 64).set "k" (Value.Str "v")).2.set
        "k" (Value.Str "v")).2) ∧
    ((((MemoryDatabase.emptyWithCapacity 64).set "k" (Value.Str "v")).2.set
        "k" (Value.Str "v")).2).size
      ≠ sumEntries ((((MemoryDatabase.emptyWithCapacity 64).set "k"
        (Value.Str "v")).2.set "k" (Value.Str "v")).2).items := by
  constructor
  · exact Reachable.set _ _ _ (Reachable.set _ _ _ (Reachable.init 64) (by rfl)) (by rfl)
  · decide

/-- Claim C2 amended (proved): for every store reachable by `set`s that
never overwrite a live key and arbitrary `remove`s, the running `size`
counter equals the sum of the live entries' accounted sizes. -/
theorem c2_size_invariant_amended (db : MemoryDatabase) (h : ReachableNoOverwrite db) :
    db.size = sumEntries db.items := by
  induction h with
  | init cap => simp [MemoryDatabase.emptyWithCapacity, sumEntries]
  | set db k v hr hget ih =>
    by_cases hc : db.size + MemoryDatabase.calculate_value_size k v > db.max_size
    · simpa [MemoryDatabase.set, hc] using ih
    · have hf : db.items.find? (fun p => p.1 == k) = none := by
        simpa [MemoryDatabase.get] using hget
      have he : db.items.eraseP (fun p => p.1 == k) = db.items :=
        List.eraseP_of_forall_not (List.find?_eq_none.mp hf)
      simp only [MemoryDatabase.set, hc, if_false]
      simp only [sumEntries_cons, he]
      omega
  | rem db k hr ih =>
    cases hf : db.items.find? (fun p => p.1 == k) with
    | none => simpa [MemoryDatabase.remove, hf] using ih
    | some kv =>
      have hk : kv.1 = k := by
        have := List.find?_some hf
        simpa using this
      have hs := sumEntries_eraseP_of_find? db.items k kv hf
      simp only [MemoryDatabase.remove, hf]
      rw [hk] at hs
      omega

/-- Witness for the amended C2 after one non-overwriting `set`. -/
theorem c2_size_invariant_amended_witness :
    (((MemoryDatabase.emptyWithCapacity 64).set "a" (Value.Str "b")).2).size
      = sumEntries (((MemoryDatabase.emptyWithCapacity 64).set "a" (Value.Str "b")).2).items :=
  c2_size_invariant_amended _
    (ReachableNoOverwrite.set _ _ _ (ReachableNoOverwrite.init 64) (by decide))

/-- Claim C1 counterexample: dispatching `["set", "k", "v"]` against an
empty store of ample capacity does NOT return `"+OK"`: the handler's
`args.len() < 3` guard (on the arguments after the command name) rejects
it with the arity error and the store is unchanged. -/
theorem c1_dispatch_set_counterexample :
    dispatch (MemoryDatabase.emptyWithCapacity 1024) ["set", "k", "v"]
      = some ("-ERR wrong number of arguments for 'set' command",
          MemoryDatabase.emptyWithCapacity 1024) ∧
    ("-ERR wrong number of arguments for 'set' command" : String) ≠ "+OK" := by
  refine ⟨rfl, ?_⟩
  decide

/-- Claim C1 amended (proved): the reference SET handler demands at least
three arguments after the command name (using only the first two), so
dispatching `["set", "k", "v", extra]` — as the repository's own demo
does with a trailing `"PX"` — against an empty store whose capacity
covers the needed bytes returns `"+OK"`, and `get "k"` then yields the
string value `"v"`. -/
theorem c1_dispatch_set_amended (cap : Int) (extra : String)
    (h : MemoryDatabase.calculate_value_size "k" (Value.Str "v") ≤ cap) :
    ∃ db2,
      dispatch (MemoryDatabase.emptyWithCapacity cap) ["set", "k", "v", extra]
        = some ("+OK", db2) ∧ db2.get "k" = some (Value.Str "v") := by
  have hlt : ¬ (cap < MemoryDatabase.calculate_value_size "k" (Value.Str "v")) :=
    not_lt.mpr h
  refine ⟨((MemoryDatabase.emptyWithCapacity cap).set "k" (Value.Str "v")).2, ?_, ?_⟩
  · simp [dispatch, toLowercase, SetCommandHandler.handle, MemoryDatabase.set,
      MemoryDatabase.emptyWithCapacity, hlt]
  · simp [MemoryDatabase.set, MemoryDatabase.emptyWithCapacity, hlt, MemoryDatabase.get,
      List.find?_cons]

/-- Witness for the amended C1 at `cap = 1024`, `extra = "px"`. -/
theorem c1_dispatch_set_amended_witness :
    ∃ db2,
      dispatch (MemoryDatabase.emptyWithCapacity 1024) ["set", "k", "v", "px"]
        = some ("+OK", db2) ∧ db2.get "k" = some (Value.Str "v") :=
  c1_dispatch_set_amended 1024 "px" (by decide)

/-- Claim C6 counterexample: `dispatch` indexes `args[0]` before any
guard, so the empty argument list aborts fatally (modelled `none`)
instead of returning a reply string. -/
theorem c6_dispatch_total_counterexample :
    dispatch (MemoryDatabase.emptyWithCapacity 1024) [] = none := rfl

/-- Claim C6 amended (proved): for every NON-empty argument list and
every store, `dispatch` returns a reply string — unknown commands, wrong
arity and store errors are all encoded into the reply. -/
theorem c6_dispatch_total_amended (db : MemoryDatabase) (args : List String)
    (h : args ≠ []) : (dispatch db args).isSome := by
  cases args with
  | nil => exact absurd rfl h
  | cons c rest =>
    by_cases hc : toLowercase c = "set"
    · simp [dispatch, hc]
    · simp [dispatch, hc]

/-- Witness for the amended C6 at the spec's `["bogus"]` example. -/
theorem c6_dispatch_total_amended_witness :
    (dispatch (MemoryDatabase.emptyWithCapacity 1024) ["bogus"]).isSome :=
  c6_dispatch_total_amended _ _ (by decide)

/-- Claim C7 (confirmed): `*1\r\n$4\r\ntest\r\n` parses to the single
argument `"test"`, and declaring `*2` over the same payload is the fatal
declared-count panic (expected 2, found 1). -/
theorem c7_declared_count :
    Parser.parse "*1\r\n$4\r\ntest\r\n" = Except.ok ["test"] ∧
    Parser.parse "*2\r\n$4\r\ntest\r\n" = Except.error (PErr.countMismatch 2 1) :=
  ⟨rfl, rfl⟩

/-- Claim C8 (confirmed): the bare-word + quoted-string command line
parses to `["set", "key", "string value"]`, quotes excluded. -/
theorem c8_bareword_quoted :
    Parser.parse "set key \"string value\"" = Except.ok ["set", "key", "string value"] :=
  rfl

/-- Claim C5 counterexample: a length-prefixed payload is NOT taken as
exactly the declared number of raw characters. On `$4\r\nab cd\r\n` the
declared 4 characters are `"ab c"`, but the parser assembles the payload
from whole lexer tokens (`"ab"`, `" "`, then `"cd"` which overflows the
count and is discarded), yielding `"ab "`. -/
theorem c5_bulk_counterexample :
    Parser.parse "$4\r\nab cd\r\n" = Except.ok ["ab "] ∧
    Parser.parse "$4\r\nab cd\r\n" ≠ Except.ok ["ab c"] := by
  have h1 : Parser.parse "$4\r\nab cd\r\n" = Except.ok ["ab "] := rfl
  refine ⟨h1, ?_⟩
  rw [h1]
  intro hEq
  have h2 := Except.ok.inj hEq
  have h3 : ("ab " : String) = "ab c" := (List.cons.inj h2).1
  exact absurd h3 (by decide)

/-- Unfolding of `getNextTokenLoop` on a cons whose head is not CR. -/
theorem gnt_cons_ne_cr (c : Char) (rest s : List Char) (q : Bool) (h1 : c ≠ '\r') :
    getNextTokenLoop (c :: rest) s q =
      if c = spaceChar ∧ q = false then
        (if s.length > 0 then (s, c :: rest) else (s ++ [spaceChar], rest))
      else if c = quoteChar ∧ q = false then getNextTokenLoop rest s true
      else if c = quoteChar ∧ q = true then (s, rest)
      else getNextTokenLoop rest (s ++ [c]) q := by
  cases rest with
  | nil => rw [getNextTokenLoop.eq_3, if_neg h1]
  | cons d r2 =>
    by_cases hn : d = '\n'
    · subst hn; rw [getNextTokenLoop.eq_2, if_neg h1]
    · rw [getNextTokenLoop.eq_4 s q c d r2 (fun hh => hn hh), if_neg h1]

/-- A character that is neither CR, space nor quote is pushed and the
loop advances. -/
theorem gnt_step (c : Char) (rest s : List Char) (q : Bool)
    (h1 : c ≠ '\r') (h2 : c ≠ spaceChar) (h3 : c ≠ quoteChar) :
    getNextTokenLoop (c :: rest) s q = getNextTokenLoop rest (s ++ [c]) q := by
  rw [gnt_cons_ne_cr c rest s q h1, if_neg (fun hh => h2 hh.1),
    if_neg (fun hh => h3 hh.1), if_neg (fun hh => h3 hh.1)]

/-- A CR met with a non-empty accumulator breaks without consuming. -/
theorem gnt_break (r s : List Char) (q : Bool) (hs : s ≠ []) :
    getNextTokenLoop ('\r' :: r) s q = (s, '\r' :: r) := by
  have hl : s.length > 0 := List.length_pos.mpr hs
  cases r with
  | nil => rw [getNextTokenLoop.eq_3, if_pos rfl, if_pos hl]
  | cons d r2 =>
    by_cases hn : d = '\n'
    · subst hn; rw [getNextTokenLoop.eq_2, if_pos rfl, if_pos hl]
    · rw [getNextTokenLoop.eq_4 s q '\r' d r2 (fun hh => hn hh), if_pos rfl, if_pos hl]

/-- A CRLF met with an empty accumulator yields the `"\r\n"` token. -/
theorem gnt_crlf (r : List Char) :
    getNextTokenLoop ('\r' :: '\n' :: r) [] false = (['\r', '\n'], r) := rfl

/-- A run of delimiter-free characters is accumulated verbatim. -/
theorem gnt_run (l : List Char)
    (hl : ∀ c ∈ l, c ≠ '\r' ∧ c ≠ spaceChar ∧ c ≠ quoteChar) :
    ∀ (r s : List Char) (q : Bool),
      getNextTokenLoop (l ++ r) s q = getNextTokenLoop r (s ++ l) q := by
  induction l with
  | nil => intro r s q; simp
  | cons c l ih =>
    intro r s q
    obtain ⟨h1, h2, h3⟩ := hl c (by simp)
    rw [List.cons_append, gnt_step c _ _ q h1 h2 h3,
      ih (fun a ha => hl a (by simp [ha])) r (s ++ [c]) q]
    congr 1
    simp

/-- The unconsumed rest returned by the token loop is a suffix of its
input. -/
theorem gnt_suffix (input s : List Char) (q : Bool) :
    (getNextTokenLoop input s q).2 <:+ input := by
  induction input, s, q using getNextTokenLoop.induct with
  | case1 s q => simp [getNextTokenLoop.eq_1]
  | case2 rest s q h =>
    have hs : s ≠ [] := by intro hh; subst hh; simp at h
    rw [gnt_break rest s q hs]
  | case3 s q h rest2 =>
    rw [getNextTokenLoop.eq_2, if_pos rfl, if_neg h]
    exact (List.suffix_cons _ _).trans (List.suffix_cons _ _)
  | case4 s q h =>
    rw [getNextTokenLoop.eq_3, if_pos rfl, if_neg h]
    exact List.nil_suffix
  | case5 s q h head rest2 hne ih =>
    rw [getNextTokenLoop.eq_4 s q '\r' head rest2 hne, if_pos rfl, if_neg h]
    exact ih.trans ((List.suffix_cons _ _).trans (List.suffix_cons _ _))
  | case6 c rest s q h1 h2 h3 =>
    rw [gnt_cons_ne_cr c rest s q h1, if_pos h2, if_pos h3]
  | case7 c rest s q h1 h2 h3 =>
    rw [gnt_cons_ne_cr c rest s q h1, if_pos h2, if_neg h3]
    exact List.suffix_cons _ _
  | case8 c rest s q h1 h2 h3 ih =>
    rw [gnt_cons_ne_cr c rest s q h1, if_neg h2, if_pos h3]
    exact ih.trans (List.suffix_cons _ _)
  | case9 c rest s q h1 h2 h3 h4 =>
    rw [gnt_cons_ne_cr c rest s q h1, if_neg h2, if_neg h3, if_pos h4]
    exact List.suffix_cons _ _
  | case10 c rest s q h1 h2 h3 h4 ih =>
    rw [gnt_cons_ne_cr c rest s q h1, if_neg h2, if_neg h3, if_neg h4]
    exact ih.trans (List.suffix_cons _ _)

/-- Every character of a produced token comes from the accumulator or
from the input. -/
theorem gnt_mem (input s : List Char) (q : Bool) (a : Char)
    (h : a ∈ (getNextTokenLoop input s q).1) : a ∈ s ∨ a ∈ input := by
  induction input, s, q using getNextTokenLoop.induct with
  | case1 s q =>
    rw [getNextTokenLoop.eq_1] at h
    exact Or.inl h
  | case2 rest s q hl =>
    have hs : s ≠ [] := by intro hh; subst hh; simp at hl
    rw [gnt_break rest s q hs] at h
    exact Or.inl h
  | case3 s q hl rest2 =>
    rw [getNextTokenLoop.eq_2, if_pos rfl, if_neg hl] at h
    rcases List.mem_append.mp h with hs | hc
    · exact Or.inl hs
    · right; simp at hc; rcases hc with hc | hc <;> simp [hc]
  | case4 s q hl =>
    rw [getNextTokenLoop.eq_3, if_pos rfl, if_neg hl] at h
    rcases List.mem_append.mp h with hs | hc
    · exact Or.inl hs
    · right; simp at hc; simp [hc]
  | case5 s q hl head rest2 hne ih =>
    rw [getNextTokenLoop.eq_4 s q '\r' head rest2 hne, if_pos rfl, if_neg hl] at h
    rcases ih h with hs | hc
    · rcases List.mem_append.mp hs with hs2 | hc2
      · exact Or.inl hs2
      · right; simp at hc2; simp [hc2]
    · right; simp [hc]
  | case6 c rest s q h1 h2 h3 =>
    rw [gnt_cons_ne_cr c rest s q h1, if_pos h2, if_pos h3] at h
    exact Or.inl h
  | case7 c rest s q h1 h2 h3 =>
    rw [gnt_cons_ne_cr c rest s q h1, if_pos h2, if_neg h3] at h
    rcases List.mem_append.mp h with hs | hc
    · exact Or.inl hs
    · right; simp at hc; simp [hc, h2.1]
  | case8 c rest s q h1 h2 h3 ih =>
    rw [gnt_cons_ne_cr c rest s q h1, if_neg h2, if_pos h3] at h
    rcases ih h with hs | hc
    · exact Or.inl hs
    · right; simp [hc]
  | case9 c rest s q h1 h2 h3 h4 =>
    rw [gnt_cons_ne_cr c rest s q h1, if_neg h2, if_neg h3, if_pos h4] at h
    exact Or.inl h
  | case10 c rest s q h1 h2 h3 h4 ih =>
    rw [gnt_cons_ne_cr c rest s q h1, if_neg h2, if_neg h3, if_neg h4] at h
    rcases ih h with hs | hc
    · rcases List.mem_append.mp hs with hs2 | hc2
      · exact Or.inl hs2
      · right; simp at hc2; simp [hc2]
    · right; simp [hc]

/-- `get_next_token` on a non-exhausted cursor. -/
theorem getNextTokenOpt_cons (c : Char) (l : List Char) :
    getNextTokenOpt (c :: l) = some (getNextTokenLoop (c :: l) [] false) := rfl

/-- One step of the main parse loop at end of input. -/
theorem parseLoop_none (fuel : Nat) (input : List Char) (tc : Int)
    (tks : List (List Char)) (hopt : getNextTokenOpt input = none) :
    parseLoop (fuel + 1) input tc tks = parseFinish tc tks := by
  simp only [parseLoop, hopt]

/-- One step of the main parse loop on a produced token, exposing the
branch structure. -/
theorem parseLoop_succ (fuel : Nat) (input : List Char) (tc : Int)
    (tks : List (List Char)) (t rest : List Char)
    (hopt : getNextTokenOpt input = some (t, rest)) :
    parseLoop (fuel + 1) input tc tks =
      (if t = [] then parseLoop fuel rest tc tks
      else if t.head? = some '*' then
        match parseI32 (t.drop 1) with
        | none => Except.error PErr.intParse
        | some n => parseLoop fuel (rest.drop 2) n tks
      else if t.head? = some '$' then
        match parseI32 (t.drop 1) with
        | none => Except.error PErr.intParse
        | some n =>
          match bulkLoop ((rest.drop 2).length + 1) (rest.drop 2) n [] 0 with
          | Except.error e => Except.error e
          | Except.ok (nt, rest2) => parseLoop fuel rest2 tc (tks ++ [nt])
      else if t = ['\r', '\n'] ∨ t = [spaceChar] then parseLoop fuel rest tc tks
      else parseLoop fuel rest tc (tks ++ [t])) := by
  simp only [parseLoop, hopt]

/-- One step of the inner bulk loop at end of input (the `unwrap` panic). -/
theorem bulkLoop_none (fuel : Nat) (input : List Char) (sz : Int)
    (acc : List Char) (cur : Nat) (hopt : getNextTokenOpt input = none) :
    bulkLoop (fuel + 1) input sz acc cur = Except.error PErr.unwrapNone := by
  simp only [bulkLoop, hopt]

/-- One step of the inner bulk loop on a produced token. -/
theorem bulkLoop_succ (fuel : Nat) (input : List Char) (sz : Int)
    (acc : List Char) (cur : Nat) (t rest : List Char)
    (hopt : getNextTokenOpt input = some (t, rest)) :
    bulkLoop (fuel + 1) input sz acc cur =
      (if ((cur + t.length : Nat) : Int) > sz then Except.ok (acc, rest)
       else bulkLoop fuel rest sz (acc ++ t) (cur + t.length)) := by
  simp only [bulkLoop, hopt]

/-- Decimal digits are not token delimiters. -/
theorem isDigit_notDelim (c : Char) (h : c.isDigit = true) :
    c ≠ '\r' ∧ c ≠ spaceChar ∧ c ≠ quoteChar := by
  refine ⟨?_, ?_, ?_⟩ <;> rintro rfl <;> revert h <;> decide

/-- Running the `$`-branch inner loop over a delimiter-free payload of
exactly the declared length followed by CRLF: the payload is collected
whole, then the `"\r\n"` token overflows the count and is consumed but
discarded, ending the loop with the input exhausted. -/
theorem bulk_run (p : List Char) (n fuel : Nat)
    (hlen : p.length = n)
    (hp : ∀ c ∈ p, c ≠ '\r' ∧ c ≠ spaceChar ∧ c ≠ quoteChar)
    (hf : 2 ≤ fuel) :
    bulkLoop fuel (p ++ ['\r', '\n']) (n : Int) [] 0 = Except.ok (p, []) := by
  obtain ⟨f2, rfl⟩ : ∃ f2, fuel = f2 + 1 + 1 := ⟨fuel - 2, by omega⟩
  have hcrlf : getNextTokenOpt ['\r', '\n'] = some (['\r', '\n'], []) := by
    rw [getNextTokenOpt_cons, gnt_crlf]
  cases p with
  | nil =>
    have hn : n = 0 := by simpa using hlen.symm
    subst hn
    rw [List.nil_append, bulkLoop_succ (f2 + 1) _ _ _ _ _ _ hcrlf]
    rw [if_pos (by decide)]
  | cons c p2 =>
    have htok : getNextTokenOpt ((c :: p2) ++ ['\r', '\n'])
        = some (c :: p2, ['\r', '\n']) := by
      rw [List.cons_append, getNextTokenOpt_cons]
      rw [show c :: (p2 ++ ['\r', '\n']) = (c :: p2) ++ ['\r', '\n'] from rfl]
      rw [gnt_run (c :: p2) hp ['\r', '\n'] [] false]
      rw [gnt_break ['\n'] ([] ++ c :: p2) false (by simp)]
      simp
    rw [bulkLoop_succ (f2 + 1) _ _ _ _ _ _ htok]
    rw [if_neg (by rw [hlen]; omega)]
    rw [bulkLoop_succ f2 _ _ _ _ _ _ hcrlf]
    rw [if_pos (by rw [hlen, show (['\r', '\n'] : List Char).length = 2 from rfl]; omega)]
    rw [List.nil_append]

/-- Claim C5 amended (proved): for an input `$<digits>\r\n<payload>\r\n`
whose digits parse to N and whose payload is exactly N delimiter-free
characters (no CR, space or quote — an embedded LF alone is fine), the
parser yields the payload verbatim as the single argument. (In general
the payload is assembled from whole lexer tokens, not raw characters,
and the token that overflows the declared count is consumed but
discarded; see the counterexample.) -/
theorem c5_bulk_amended (d p : List Char) (n : Nat)
    (hd : ∀ c ∈ d, c.isDigit = true)
    (hnum : parseI32 d = some (n : Int))
    (hlen : p.length = n)
    (hp : ∀ c ∈ p, c ≠ '\r' ∧ c ≠ spaceChar ∧ c ≠ quoteChar) :
    Parser.parse (String.mk ('$' :: (d ++ '\r' :: '\n' :: (p ++ ['\r', '\n'])))) =
      Except.ok [p.asString] := by
  have htok : getNextTokenOpt ('$' :: (d ++ '\r' :: '\n' :: (p ++ ['\r', '\n'])))
      = some ('$' :: d, '\r' :: '\n' :: (p ++ ['\r', '\n'])) := by
    rw [getNextTokenOpt_cons]
    rw [gnt_step '$' _ [] false (by decide) (by decide) (by decide)]
    rw [gnt_run d (fun c hc => isDigit_notDelim c (hd c hc)) _ _ _]
    rw [gnt_break _ _ _ (by simp)]
    simp
  show (parseLoop ((String.mk ('$' :: (d ++ '\r' :: '\n' :: (p ++ ['\r', '\n'])))).length + 1)
      ('$' :: (d ++ '\r' :: '\n' :: (p ++ ['\r', '\n']))) 0 []).map (fun ts => ts.map List.asString)
    = Except.ok [p.asString]
  have hlsucc : (String.mk ('$' :: (d ++ '\r' :: '\n' :: (p ++ ['\r', '\n'])))).length
      = (d ++ '\r' :: '\n' :: (p ++ ['\r', '\n'])).length + 1 := by
    show ('$' :: (d ++ '\r' :: '\n' :: (p ++ ['\r', '\n']))).length = _
    rw [List.length_cons]
  rw [hlsucc]
  rw [parseLoop_succ _ _ _ _ _ _ htok]
  rw [if_neg (by simp)]
  rw [if_neg (by simp)]
  rw [if_pos (by simp)]
  rw [show ('$' :: d).drop 1 = d from rfl]
  rw [hnum]
  show (Except.map (fun ts => ts.map List.asString)
    (match bulkLoop ((('\r' :: '\n' :: (p ++ ['\r', '\n'])).drop 2).length + 1)
        (('\r' :: '\n' :: (p ++ ['\r', '\n'])).drop 2) (n : Int) [] 0 with
      | Except.error e => Except.error e
      | Except.ok (nt, rest2) =>
        parseLoop ((d ++ '\r' :: '\n' :: (p ++ ['\r', '\n'])).length + 1) rest2 0 ([] ++ [nt])))
    = Except.ok [p.asString]
  rw [show ('\r' :: '\n' :: (p ++ ['\r', '\n'])).drop 2 = p ++ ['\r', '\n'] from rfl]
  rw [bulk_run p n _ hlen hp (by simp)]
  show (Except.map (fun ts => ts.map List.asString)
    (parseLoop ((d ++ '\r' :: '\n' :: (p ++ ['\r', '\n'])).length + 1) [] 0 ([] ++ [p])))
    = Except.ok [p.asString]
  rw [parseLoop_none _ [] 0 ([] ++ [p]) rfl]
  rfl

/-- Witness for the amended C5: `$4\r\ntest\r\n` decodes to `"test"`. -/
theorem c5_bulk_amended_witness :
    Parser.parse (String.mk ('$' :: (['4'] ++ '\r' :: '\n' :: ("test".data ++ ['\r', '\n'])))) =
      Except.ok ["test"] :=
  c5_bulk_amended ['4'] "test".data 4 (by decide) (by decide) (by decide) (by decide)

/-- The rest returned with a token is a suffix of the input. -/
theorem getNextTokenOpt_rest_suffix (input t rest : List Char)
    (hopt : getNextTokenOpt input = some (t, rest)) : rest <:+ input := by
  cases input with
  | nil => simp [getNextTokenOpt] at hopt
  | cons c l =>
    rw [getNextTokenOpt_cons] at hopt
    have h2 := Option.some.inj hopt
    have h3 : rest = (getNextTokenLoop (c :: l) [] false).2 := by rw [h2]
    rw [h3]
    exact gnt_suffix _ _ _

/-- Every character of a produced token occurs in the input. -/
theorem getNextTokenOpt_mem_token (input t rest : List Char) (a : Char)
    (hopt : getNextTokenOpt input = some (t, rest)) (ha : a ∈ t) : a ∈ input := by
  cases input with
  | nil => simp [getNextTokenOpt] at hopt
  | cons c l =>
    rw [getNextTokenOpt_cons] at hopt
    have h2 := Option.some.inj hopt
    have ht : t = (getNextTokenLoop (c :: l) [] false).1 := by rw [h2]
    rw [ht] at ha
    rcases gnt_mem _ _ _ _ ha with hs | hi
    · simp at hs
    · exact hi

/-- The inner bulk loop never raises the declared-count panic. -/
theorem bulk_no_cm (fuel : Nat) : ∀ (input : List Char) (sz : Int) (acc : List Char)
    (cur : Nat) (e : Int) (a : Nat),
    bulkLoop fuel input sz acc cur ≠ Except.error (PErr.countMismatch e a) := by
  induction fuel with
  | zero => intro input sz acc cur e a h; simp [bulkLoop] at h
  | succ f ih =>
    intro input sz acc cur e a
    cases input with
    | nil => rw [bulkLoop_none _ [] _ _ _ rfl]; simp
    | cons c l =>
      obtain ⟨t, rest, hopt⟩ : ∃ t rest, getNextTokenOpt (c :: l) = some (t, rest) :=
        ⟨_, _, by rw [getNextTokenOpt_cons]⟩
      rw [bulkLoop_succ _ _ _ _ _ _ _ hopt]
      by_cases hc : ((cur + t.length : Nat) : Int) > sz
      · rw [if_pos hc]; simp
      · rw [if_neg hc]; exact ih _ _ _ _ e a

/-- On success the input left by the bulk loop is a suffix of what it was
given. -/
theorem bulk_ok_suffix (fuel : Nat) : ∀ (input : List Char) (sz : Int)
    (acc nt rest2 : List Char) (cur : Nat),
    bulkLoop fuel input sz acc cur = Except.ok (nt, rest2) → rest2 <:+ input := by
  induction fuel with
  | zero => intro input sz acc nt rest2 cur h; simp [bulkLoop] at h
  | succ f ih =>
    intro input sz acc nt rest2 cur h
    cases input with
    | nil => rw [bulkLoop_none _ [] _ _ _ rfl] at h; simp at h
    | cons c l =>
      obtain ⟨t, rest, hopt⟩ : ∃ t rest, getNextTokenOpt (c :: l) = some (t, rest) :=
        ⟨_, _, by rw [getNextTokenOpt_cons]⟩
      have hrs : rest <:+ c :: l := getNextTokenOpt_rest_suffix _ _ _ hopt
      rw [bulkLoop_succ _ _ _ _ _ _ _ hopt] at h
      by_cases hc : ((cur + t.length : Nat) : Int) > sz
      · rw [if_pos hc] at h
        have h2 := Except.ok.inj h
        have h3 := (Prod.mk.inj h2).2
        rw [← h3]
        exact hrs
      · rw [if_neg hc] at h
        exact (ih _ _ _ _ _ _ h).trans hrs

/-- Core of claim C10: starting from a declared count of zero, an input
containing no `*` character can never reach the declared-count panic
(the count is only checked when the most recent `*`-marker declared a
strictly positive count, and no marker ever appears). Holds for every
fuel. -/
theorem parse_no_cm (fuel : Nat) : ∀ (input : List Char) (tks : List (List Char)),
    '*' ∉ input → isCountMismatch (parseLoop fuel input 0 tks) = false := by
  induction fuel with
  | zero => intro input tks hstar; rfl
  | succ f ih =>
    intro input tks hstar
    cases input with
    | nil =>
      rw [parseLoop_none _ [] _ _ rfl]
      simp only [parseFinish]
      rw [if_neg (fun hh => absurd hh.1 (by omega))]
      rfl
    | cons c l =>
      obtain ⟨t, rest, hopt⟩ : ∃ t rest, getNextTokenOpt (c :: l) = some (t, rest) :=
        ⟨_, _, by rw [getNextTokenOpt_cons]⟩
      have hrest : rest <:+ c :: l := getNextTokenOpt_rest_suffix _ _ _ hopt
      have hrestmem : '*' ∉ rest := fun hm => hstar (hrest.subset hm)
      rw [parseLoop_succ _ _ _ _ _ _ hopt]
      by_cases ht0 : t = []
      · rw [if_pos ht0]; exact ih _ _ hrestmem
      rw [if_neg ht0]
      by_cases hstar2 : t.head? = some '*'
      · exfalso
        apply hstar
        refine getNextTokenOpt_mem_token _ _ _ '*' hopt ?_
        cases t with
        | nil => simp at hstar2
        | cons t0 ts =>
          have : t0 = '*' := by simpa using hstar2
          rw [this]
          simp
      rw [if_neg hstar2]
      by_cases hdol : t.head? = some '$'
      · rw [if_pos hdol]
        cases hpi : parseI32 (t.drop 1) with
        | none => rfl
        | some n =>
          show isCountMismatch
            (match bulkLoop ((rest.drop 2).length + 1) (rest.drop 2) n [] 0 with
              | Except.error e => Except.error e
              | Except.ok (nt, rest2) => parseLoop f rest2 0 (tks ++ [nt])) = false
          cases hbk : bulkLoop ((rest.drop 2).length + 1) (rest.drop 2) n [] 0 with
          | error e =>
            cases e with
            | countMismatch x y => exact absurd hbk (bulk_no_cm _ _ _ _ _ x y)
            | fuelOut => rfl
            | unwrapNone => rfl
            | intParse => rfl
          | ok pr =>
            obtain ⟨nt, rest2⟩ := pr
            have hsub : '*' ∉ rest2 := by
              intro hm
              have h1 : rest2 <:+ rest.drop 2 := bulk_ok_suffix _ _ _ _ _ _ _ hbk
              have h2 : rest.drop 2 <:+ rest := List.drop_suffix 2 rest
              exact hrestmem ((h1.trans h2).subset hm)
            exact ih _ _ hsub
      rw [if_neg hdol]
      by_cases hsk : t = ['\r', '\n'] ∨ t = [spaceChar]
      · rw [if_pos hsk]; exact ih _ _ hrestmem
      · rw [if_neg hsk]; exact ih _ _ hrestmem

/-- Claim C10 (confirmed): the declared-count check only fires when the
most recently seen `*`-marker declared a strictly positive count. An
input with no array header at all, and an input headed by `*0` followed
by marker-free material, both parse without any count-mismatch panic
(whatever the number of elements actually produced). -/
theorem c10_count_check_scope :
    (∀ s : String, '*' ∉ s.data → isCountMismatch (Parser.parse s) = false) ∧
    (∀ t : String, '*' ∉ t.data →
      isCountMismatch (Parser.parse ("*0\r\n" ++ t)) = false) := by
  have hmap : ∀ (x : Except PErr (List (List Char))),
      isCountMismatch (x.map (fun ts => ts.map List.asString)) = isCountMismatch x := by
    intro x
    cases x with
    | ok v => rfl
    | error e => cases e <;> rfl
  constructor
  · intro s hs
    show isCountMismatch ((parseLoop (s.length + 1) s.data 0 []).map
      (fun ts => ts.map List.asString)) = false
    rw [hmap]
    exact parse_no_cm _ _ _ hs
  · intro t ht
    show isCountMismatch ((parseLoop (("*0\r\n" ++ t).length + 1) ("*0\r\n" ++ t).data 0 []).map
      (fun ts => ts.map List.asString)) = false
    rw [hmap]
    have hdata : ("*0\r\n" ++ t).data = '*' :: '0' :: '\r' :: '\n' :: t.data := by
      rw [String.data_append]
      exact rfl
    rw [hdata]
    have htok : getNextTokenOpt ('*' :: '0' :: '\r' :: '\n' :: t.data)
        = some (['*', '0'], '\r' :: '\n' :: t.data) := by
      rw [getNextTokenOpt_cons]
      rw [gnt_step '*' _ [] false (by decide) (by decide) (by decide)]
      rw [gnt_step '0' _ _ false (by decide) (by decide) (by decide)]
      rw [gnt_break _ _ _ (by simp)]
      exact rfl
    rw [parseLoop_succ _ _ _ _ _ _ htok]
    rw [if_neg (by decide)]
    rw [if_pos (by decide)]
    rw [show (['*', '0'] : List Char).drop 1 = ['0'] from rfl]
    rw [show parseI32 ['0'] = some 0 from by decide]
    show isCountMismatch
      (parseLoop ("*0\r\n" ++ t).length (('\r' :: '\n' :: t.data).drop 2) 0 []) = false
    rw [show ('\r' :: '\n' :: t.data).drop 2 = t.data from rfl]
    exact parse_no_cm _ _ _ ht

/-- Witness for C10: a marker-free input, and a `*0` header followed by
one actual element (a mismatch had the zero count been checked). -/
theorem c10_count_check_scope_witness :
    isCountMismatch (Parser.parse "$4\r\ntest\r\n") = false ∧
    isCountMismatch (Parser.parse ("*0\r\n" ++ "$4\r\ntest\r\n")) = false :=
  ⟨c10_count_check_scope.1 "$4\r\ntest\r\n" (by decide),
   c10_count_check_scope.2 "$4\r\ntest\r\n" (by decide)⟩
